import Mathlib

/-!
# Verification of `parllama/theme_manager.py`

A shallow embedding of the theme manager: theme loading with fallback
(`load_theme`), bulk loading (`load_themes`), default-theme seeding
(`ensure_default_theme`) and the registry facade (`get_theme`,
`list_themes`, `theme_select_options`, `change_theme`).

Paths are plain strings joined with `/` (POSIX, as in the source).
The file system is explicit state: a list of directory paths plus an
association list from file path to file content.  `load_theme`'s
recursive fallback does not structurally decrease, so it is embedded
with explicit fuel; a result carries a `fuelOut` flag that is `true`
exactly when the recursion was truncated, and every recorded
registration, log event and file access of a (possibly truncated) run
is one the real program performs.
-/

set_option autoImplicit false

namespace ThemeManager

/-- Characters of a string after the last `/`; the semantics of
`os.path.basename` on POSIX (`p[p.rfind(sep)+1:]`). -/
def afterLastSlash (l : List Char) : List Char :=
  (l.reverse.takeWhile (fun c => c ≠ '/')).reverse

/-- `os.path.basename` for POSIX paths. -/
def basename (s : String) : String :=
  ⟨afterLastSlash s.data⟩

/-- `true` when the string contains no `/`, i.e. it is a single path
component. -/
def noSlash (s : String) : Bool :=
  s.data.all (fun c => c ≠ '/')

/-- The characters of a basename strictly before its last `.`. -/
def beforeLastDot (m : List Char) : List Char :=
  ((m.reverse.dropWhile (fun c => c ≠ '.')).drop 1).reverse

/-- The root part of `os.path.splitext`: the extension is split off at
the last `.` only when some earlier character of the basename is not a
`.` (so `.json` alone keeps its dot, as in `posixpath._splitext`). -/
def splitextRootChars (l : List Char) : List Char :=
  let base := afterLastSlash l
  let pre := base.takeWhile (fun c => c = '.')
  let rest := base.drop pre.length
  if rest.contains '.' then
    (l.take (l.length - base.length)) ++ pre ++ beforeLastDot rest
  else l

/-- `os.path.splitext(s)[0]`. -/
def splitextRoot (s : String) : String :=
  ⟨splitextRootChars s.data⟩

/-- Association-list lookup with string keys, the embedding of Python
`dict` membership and indexing. -/
def alookup {α : Type} : List (String × α) → String → Option α
  | [], _ => none
  | (k, v) :: rest, key => if k = key then some v else alookup rest key

/-- A theme's per-mode attribute mapping (opaque to the manager). -/
abbrev Attrs := List (String × String)

/-- A parsed theme definition file: a JSON object keyed by mode name. -/
abbrev ThemeDef := List (String × Attrs)

/-- Content of a file on disk, as far as the loader can observe it
through the accessor: parseable JSON of the expected shape, or not. -/
inductive FileData where
  | json (d : ThemeDef)
  | invalid
  deriving DecidableEq

/-- Explicit file-system state: existing directories and files. -/
structure FS where
  dirs : List String
  files : List (String × FileData)
  deriving DecidableEq

/-- Error kinds of the secure file accessor, per the error taxonomy:
`AccessDenied`, `NotFound`, `ParseError`.  These stand for the Python
`SecureFileOpsError`/`OSError` family that `load_theme` catches. -/
inductive SecureErr where
  | accessDenied
  | notFound
  | parseError
  deriving DecidableEq

/-- `true` when the path ends in `.json`. -/
def hasJsonExt (p : String) : Bool :=
  p.data.reverse.take 5 = ".json".data.reverse

/-- Modelled from the spec: `SecureFileOperations.read_json_file`
(`parllama/secure_file_ops.py`, not part of the sources).  Per §4.1 it
rejects a disallowed extension (`AccessDenied`), a missing file
(`NotFound`) and unparsable content (`ParseError`), and returns the
parsed mapping on success; it never raises a raw I/O fault.  The
max-size and filename-sanitization policies are not observable in this
model (file contents carry no size) and are elided. -/
def read_json_file (fs : FS) (p : String) : Except SecureErr ThemeDef :=
  if hasJsonExt p then
    match alookup fs.files p with
    | none => .error .notFound
    | some .invalid => .error .parseError
    | some (.json d) => .ok d
  else .error .accessDenied

/-- Configuration and app state visible to the manager: the theme
storage directory `<data_dir>/themes` rendered as a string, the
configured fallback theme name, whether the Textual app has been set,
and the content of the bundled `par.json` asset. -/
structure Env where
  themeFolderStr : String
  fallbackName : String
  appSet : Bool
  defaultAsset : FileData
  deriving DecidableEq

/-- The path `<theme_folder>/<basename(name)>.json` that
`load_theme(name)` resolves. -/
def theme_file_for (e : Env) (name : String) : String :=
  e.themeFolderStr ++ "/" ++ (basename name ++ ".json")

/-- An exception escaping `load_theme` to its caller. -/
inductive LoadErr where
  | appNotInitialized
  | themeMode (themeName : String)
  deriving DecidableEq

/-- One `log_it` call, by call site: the per-theme load failure
(line 97) and the failed-fallback report (lines 104–106). -/
inductive LogEvent where
  | loadError (themeName : String) (err : SecureErr)
  | fallbackFailed (fallbackName : String)
  deriving DecidableEq

/-- A registered Textual `Theme`: its name and its attribute mapping. -/
abbrev ThemeObj := String × Attrs

/-- Observable outcome of one `load_theme` call: theme registrations,
log events and file accesses in order, the exception escaping to the
caller if any, and whether the run was truncated by fuel. -/
structure LoadResult where
  regs : List ThemeObj
  logs : List LogEvent
  accesses : List String
  err : Option LoadErr
  fuelOut : Bool
  deriving DecidableEq

/-- The fixed mode list `ThemeModes = ["dark", "light"]`. -/
def ThemeModes : List String := ["dark", "light"]

/-- The registration loop of `load_theme`: one `Theme` named
`<theme_name>_<mode>` per mode present in the definition, in the fixed
order of `ThemeModes`. -/
def regsFor (theme_name : String) (theme_def : ThemeDef) : List ThemeObj :=
  ThemeModes.filterMap fun mode =>
    match alookup theme_def mode with
    | some attrs => some (theme_name ++ "_" ++ mode, attrs)
    | none => none

/-- `ThemeManager.load_theme`, fuel-indexed.  With `fuel = 0` the run
is truncated (`fuelOut := true`) before doing anything; otherwise it
mirrors the source: raise if the app is unset, strip the name to its
basename, read `<theme_folder>/<name>.json` through the accessor, on
success raise `ThemeModeError` when neither mode key is present and
otherwise register one theme per present mode; on an accessor error
log it and, when the stripped name differs from the configured
fallback name, recursively load the fallback, catching every exception
of that recursive call and logging a fallback failure for it. -/
def load_theme_fuel (e : Env) (fs : FS) : Nat → String → LoadResult
  | 0, _ => ⟨[], [], [], none, true⟩
  | fuel + 1, name =>
    if e.appSet then
      let theme_name := basename name
      let theme_file := e.themeFolderStr ++ "/" ++ (theme_name ++ ".json")
      match read_json_file fs theme_file with
      | .ok theme_def =>
        if alookup theme_def "dark" = none ∧ alookup theme_def "light" = none then
          ⟨[], [], [theme_file], some (.themeMode theme_name), false⟩
        else
          ⟨regsFor theme_name theme_def, [], [theme_file], none, false⟩
      | .error err =>
        if theme_name ≠ e.fallbackName then
          let r := load_theme_fuel e fs fuel e.fallbackName
          let extra := if r.err.isSome then [LogEvent.fallbackFailed e.fallbackName] else []
          ⟨r.regs, LogEvent.loadError theme_name err :: (r.logs ++ extra),
            theme_file :: r.accesses, none, r.fuelOut⟩
        else
          ⟨[], [LogEvent.loadError theme_name err], [theme_file], none, false⟩
    else
      ⟨[], [], [], some .appNotInitialized, false⟩

/-- `ThemeManager.ensure_default_theme`: create the theme folder when
it does not exist, then copy the bundled `par.json` asset to
`<theme_folder>/par.json` when that file does not exist.  Directory
creation is modelled as inserting the folder path (`mkdir` with
`parents=True, exist_ok=True`; parent entries are not tracked because
nothing in the manager ever consults them). -/
def ensure_default_theme (e : Env) (fs : FS) : FS :=
  let fs1 := if e.themeFolderStr ∈ fs.dirs then fs
    else { fs with dirs := e.themeFolderStr :: fs.dirs }
  let theme_file := e.themeFolderStr ++ "/" ++ "par.json"
  if (alookup fs1.files theme_file).isSome then fs1
  else { fs1 with files := (theme_file, e.defaultAsset) :: fs1.files }

/-- `some rest` when `l ++ rest = m`, else `none`. -/
def dropPre : List Char → List Char → Option (List Char)
  | [], m => some m
  | _ :: _, [] => none
  | a :: as, b :: bs => if a = b then dropPre as bs else none

/-- The directory entry a file path `p` contributes to a listing of
directory `d`: its final component, when `p` is directly inside `d`. -/
def listEntry (d p : String) : Option String :=
  match dropPre (d ++ "/").data p.data with
  | some rest => if rest ≠ [] ∧ rest.all (fun c => c ≠ '/') then some ⟨rest⟩ else none
  | none => none

/-- `os.listdir` of a directory: the entries directly inside it, given
the file listing of the file system.  The model keeps files only (the
claims' directories hold no subdirectories), in the order of the
listing — `os.listdir` guarantees no order. -/
def listdir (files : List (String × FileData)) (d : String) : List String :=
  files.filterMap fun pc => listEntry d pc.1

/-- `file.lower().endswith(".json")`: case-insensitive `.json`
extension test. -/
def jsonExtCI (f : String) : Bool :=
  (f.data.map Char.toLower).reverse.take 5 = ".json".data.reverse

/-- The loop body of `load_themes`: call
`load_theme(f"{theme_folder}/{splitext(file)[0]}")` for each entry
with a `.json` extension; an exception escaping one call aborts the
batch and propagates (a truncated call truncates the batch). -/
def run_batch (e : Env) (fs : FS) (fuel : Nat) : List String → LoadResult
  | [] => ⟨[], [], [], none, false⟩
  | f :: rest =>
    if jsonExtCI f then
      let r := load_theme_fuel e fs fuel (e.themeFolderStr ++ "/" ++ splitextRoot f)
      if r.err.isSome ∨ r.fuelOut then r
      else
        let rr := run_batch e fs fuel rest
        ⟨r.regs ++ rr.regs, r.logs ++ rr.logs, r.accesses ++ rr.accesses, rr.err, rr.fuelOut⟩
    else run_batch e fs fuel rest

/-- `ThemeManager.load_themes`: ensure the default theme, then load
every `.json` file of the theme folder.  Returns the file system after
seeding together with the aggregated observable outcome. -/
def load_themes_fuel (e : Env) (fs : FS) (fuel : Nat) : FS × LoadResult :=
  let fs1 := ensure_default_theme e fs
  (fs1, run_batch e fs1 fuel (listdir fs1.files e.themeFolderStr))

/-- The host runtime state the facade consults: `available_themes`
(name → theme object) and the active `theme` name. -/
structure AppState where
  availableThemes : List (String × ThemeObj)
  theme : String
  deriving DecidableEq

/-- An exception escaping a facade operation: the
`Exception("App is not initialized")` raised when no app is set, or
the `KeyError` of an unknown theme name. -/
inductive FacadeErr where
  | appNotInitialized
  | keyError (themeName : String)
  deriving DecidableEq

/-- `ThemeManager.get_theme`: `self.app.available_themes[theme_name]`,
after the app-initialized check. -/
def get_theme (app : Option AppState) (theme_name : String) : Except FacadeErr ThemeObj :=
  match app with
  | none => .error .appNotInitialized
  | some a =>
    match alookup a.availableThemes theme_name with
    | some t => .ok t
    | none => .error (.keyError theme_name)

/-- `ThemeManager.list_themes`: the keys of `available_themes`, after
the app-initialized check. -/
def list_themes (app : Option AppState) : Except FacadeErr (List String) :=
  match app with
  | none => .error .appNotInitialized
  | some a => .ok (a.availableThemes.map Prod.fst)

/-- `ThemeManager.theme_select_options`:
`[(theme, theme) for theme in self.list_themes()]` — no app check of
its own, the one inside `list_themes` propagates. -/
def theme_select_options (app : Option AppState) : Except FacadeErr (List (String × String)) :=
  match list_themes app with
  | .error err => .error err
  | .ok l => .ok (l.map fun t => (t, t))

/-- `ThemeManager.change_theme`: set `self.app.theme`, after the
app-initialized check. -/
def change_theme (app : Option AppState) (theme_name : String) : Except FacadeErr AppState :=
  match app with
  | none => .error .appNotInitialized
  | some a => .ok { a with theme := theme_name }

/-! ### Sample environments and file systems used by the witnesses -/

/-- A standard configuration: folder `/data/themes`, fallback `par`,
app initialized, a valid bundled asset. -/
def sampleEnv : Env :=
  ⟨"/data/themes", "par", true, .json [("dark", [("primary", "black")])]⟩

/-- Same configuration with the app not yet set. -/
def noAppEnv : Env :=
  ⟨"/data/themes", "par", false, .json [("dark", [("primary", "black")])]⟩

/-- A configuration whose fallback name contains a directory
separator, so its basename differs from it. -/
def slashFallbackEnv : Env :=
  ⟨"/data/themes", "bad/fb", true, .json []⟩

/-- A theme folder with a valid two-mode `par.json` and an unparsable
`bad.json`. -/
def sampleFS : FS :=
  ⟨["/data/themes"],
    [("/data/themes/par.json",
        .json [("dark", [("primary", "red")]), ("light", [("primary", "white")])]),
      ("/data/themes/bad.json", .invalid)]⟩

/-- A theme folder whose only file parses to a definition with neither
mode key. -/
def noModeFS : FS :=
  ⟨["/data/themes"], [("/data/themes/empty.json", .json [("other", [])])]⟩

/-- A theme folder where the fallback `par.json` itself parses to a
definition with neither mode key. -/
def noModeParFS : FS :=
  ⟨["/data/themes"], [("/data/themes/par.json", .json [("other", [])])]⟩

/-- A theme folder holding a light-only `custom.json` besides the
default. -/
def customFS : FS :=
  ⟨["/data/themes"],
    [("/data/themes/par.json", .json [("dark", [("primary", "red")])]),
      ("/data/themes/custom.json", .json [("light", [("primary", "white")])])]⟩

/-- An empty file system. -/
def emptyFS : FS := ⟨[], []⟩

/-- A configuration whose fallback theme `other` has no file on disk
in the samples below. -/
def otherFbEnv : Env :=
  ⟨"/data/themes", "other", true, .json [("dark", [("primary", "black")])]⟩

/-- A theme folder listing an unparsable `bad.json` before a
light-only `custom.json`; neither the default `par.json` nor any
fallback file is present. -/
def invalidFirstFS : FS :=
  ⟨["/data/themes"],
    [("/data/themes/bad.json", .invalid),
      ("/data/themes/custom.json", .json [("light", [("primary", "white")])])]⟩

/-! ### Helper lemmas -/

theorem noSlash_spec {s : String} (h : noSlash s = true) : ∀ c ∈ s.data, c ≠ '/' := by
  intro c hc
  exact of_decide_eq_true (List.all_eq_true.mp h c hc)

theorem takeWhile_ne_slash_append (xs ys : List Char) (h : ∀ c ∈ xs, c ≠ '/') :
    (xs ++ '/' :: ys).takeWhile (fun c => c ≠ '/') = xs := by
  induction xs with
  | nil => simp [List.takeWhile]
  | cons a as ih =>
    have ha : a ≠ '/' := h a (by simp)
    have ih' := ih fun c hc => h c (by simp [hc])
    simpa [List.takeWhile_cons, ha] using ih'

theorem data_append_slash (l m : String) :
    (l ++ "/" ++ m).data = l.data ++ '/' :: m.data := by
  rw [String.data_append, String.data_append]
  simp [show ("/" : String).data = ['/'] from rfl]

theorem basename_append (l m : String) (h : noSlash m = true) :
    basename (l ++ "/" ++ m) = m := by
  unfold basename afterLastSlash
  rw [data_append_slash]
  rw [show (l.data ++ '/' :: m.data).reverse = m.data.reverse ++ '/' :: l.data.reverse by
    simp [List.reverse_append]]
  rw [takeWhile_ne_slash_append _ _ (by
    intro c hc
    exact noSlash_spec h c (List.mem_reverse.mp hc))]
  simp

theorem basename_noSlash (s : String) : noSlash (basename s) = true := by
  unfold noSlash
  apply List.all_eq_true.mpr
  intro c hc
  have hc' : c ∈ (List.takeWhile (fun c => decide (c ≠ '/')) s.data.reverse).reverse := hc
  exact @List.mem_takeWhile_imp Char (fun c => decide (c ≠ '/')) s.data.reverse c
    (List.mem_reverse.mp hc')

theorem basename_of_noSlash (s : String) (h : noSlash s = true) : basename s = s := by
  have hself : List.takeWhile (fun c => decide (c ≠ '/')) s.data.reverse = s.data.reverse :=
    List.takeWhile_eq_self_iff.mpr (by
      intro c hc
      exact decide_eq_true (noSlash_spec h c (List.mem_reverse.mp hc)))
  unfold basename afterLastSlash
  rw [hself, List.reverse_reverse]

theorem noSlash_append (a b : String) :
    noSlash (a ++ b) = (noSlash a && noSlash b) := by
  simp [noSlash, String.data_append, List.all_append]

theorem dropPre_append (l m : List Char) : dropPre l (l ++ m) = some m := by
  induction l with
  | nil => rfl
  | cons a as ih => simp [dropPre, ih]

theorem append_right_ne (s a b : String) (h : a ≠ b) : s ++ a ≠ s ++ b := by
  intro heq
  apply h
  have hd := congrArg String.data heq
  rw [String.data_append, String.data_append] at hd
  exact String.ext (List.append_cancel_left hd)

theorem hasJsonExt_append (s : String) : hasJsonExt (s ++ ".json") = true := by
  unfold hasJsonExt
  apply decide_eq_true
  rw [String.data_append, List.reverse_append]
  rw [show (5 : Nat) = (".json".data.reverse).length from rfl, List.take_left]

theorem theme_file_for_ext (e : Env) (n : String) :
    hasJsonExt (theme_file_for e n) = true := by
  unfold theme_file_for
  rw [← String.append_assoc]
  exact hasJsonExt_append _

theorem takeWhile_length_le (p : Char → Bool) (l : List Char) :
    (l.takeWhile p).length ≤ l.length := by
  induction l with
  | nil => simp
  | cons a as ih =>
    by_cases h : p a = true
    · simp only [List.takeWhile_cons, h, if_true, List.length_cons]
      omega
    · simp [List.takeWhile_cons, h]

theorem takeWhile_append_stops (p : Char → Bool) (l₁ l₂ : List Char) (c : Char)
    (hc : c ∈ l₁) (hpc : p c = false) :
    (l₁ ++ l₂).takeWhile p = l₁.takeWhile p := by
  induction l₁ with
  | nil => cases hc
  | cons a as ih =>
    by_cases h : p a = true
    · have hca : c ∈ as := by
        cases List.mem_cons.mp hc with
        | inl he => rw [he, h] at hpc; cases hpc
        | inr hm => exact hm
      simp only [List.cons_append, List.takeWhile_cons, h, if_true]
      rw [ih hca]
    · simp [List.takeWhile_cons, h]

theorem drop_length_takeWhile (p : Char → Bool) (l : List Char) :
    l.drop (l.takeWhile p).length = l.dropWhile p := by
  induction l with
  | nil => rfl
  | cons a as ih =>
    by_cases h : p a = true
    · simp [List.takeWhile_cons, List.dropWhile_cons, h, ih]
    · simp [List.takeWhile_cons, List.dropWhile_cons, h]

theorem dropWhile_ne_dot_append (l₁ l₂ : List Char) (h : ∀ c ∈ l₁, c ≠ '.') :
    (l₁ ++ '.' :: l₂).dropWhile (fun c => c ≠ '.') = '.' :: l₂ := by
  induction l₁ with
  | nil => simp [List.dropWhile_cons]
  | cons a as ih =>
    have ha : a ≠ '.' := h a (by simp)
    simp only [List.cons_append, List.dropWhile_cons, decide_eq_true ha, if_true]
    exact ih fun c hc => h c (by simp [hc])

theorem afterLastSlash_of_noSlash (l : List Char) (h : ∀ c ∈ l, c ≠ '/') :
    afterLastSlash l = l := by
  unfold afterLastSlash
  rw [List.takeWhile_eq_self_iff.mpr (by
    intro c hc
    exact decide_eq_true (h c (List.mem_reverse.mp hc)))]
  exact List.reverse_reverse l

theorem beforeLastDot_json (m : List Char) :
    beforeLastDot (m ++ (".json" : String).data) = m := by
  unfold beforeLastDot
  rw [show (".json" : String).data = '.' :: ("json" : String).data from rfl]
  rw [List.reverse_append,
    show ('.' :: ("json" : String).data).reverse
      = ("json" : String).data.reverse ++ ['.'] from by simp,
    List.append_assoc,
    show (['.'] ++ m.reverse) = '.' :: m.reverse from rfl]
  rw [dropWhile_ne_dot_append _ _ (by decide)]
  simp

/-- `os.path.splitext` undoes appending `.json` for every ordinary name:
one with no `/` and at least one non-dot character. -/
theorem splitextRoot_json (v : String) (h1 : noSlash v = true)
    (h2 : ∃ c ∈ v.data, c ≠ '.') :
    splitextRoot (v ++ ".json") = v := by
  obtain ⟨c0, hc0, hc0ne⟩ := h2
  have hjall : ∀ c ∈ (".json" : String).data, c ≠ '/' := by decide
  have hall : ∀ c ∈ v.data ++ (".json" : String).data, c ≠ '/' := by
    intro c hc
    cases List.mem_append.mp hc with
    | inl hcv => exact noSlash_spec h1 c hcv
    | inr hcj => exact hjall c hcj
  simp only [splitextRoot, splitextRootChars, String.data_append]
  rw [afterLastSlash_of_noSlash _ hall]
  rw [takeWhile_append_stops _ _ _ c0 hc0 (decide_eq_false hc0ne)]
  rw [List.drop_append_of_le_length (takeWhile_length_le _ _)]
  rw [drop_length_takeWhile]
  have hcont : ((v.data.dropWhile fun c => c = '.') ++ (".json" : String).data).contains '.'
      = true := by
    rw [show (".json" : String).data = '.' :: ("json" : String).data from rfl]
    simp
  rw [if_pos hcont]
  rw [beforeLastDot_json]
  simp [List.takeWhile_append_dropWhile]

theorem jsonExtCI_append (x : String) : jsonExtCI (x ++ ".json") = true := by
  unfold jsonExtCI
  apply decide_eq_true
  rw [String.data_append, List.map_append, List.reverse_append]
  rw [show (".json" : String).data.map Char.toLower = (".json" : String).data from by decide]
  rw [show (5 : Nat) = ((".json" : String).data.reverse).length from rfl, List.take_left]

theorem append_json_ne (v w : String) (h : v ≠ w) : v ++ ".json" ≠ w ++ ".json" := by
  intro heq
  apply h
  have hd := congrArg String.data heq
  rw [String.data_append, String.data_append] at hd
  exact String.ext (List.append_cancel_right hd)

theorem append_json_data_ne_nil (v : String) : (v ++ ".json").data ≠ [] := by
  rw [String.data_append]
  simp

/-- A completed (untruncated) run is independent of any larger fuel:
the fuel index only truncates, it never changes a finished result. -/
theorem load_theme_fuel_stable (e : Env) (fs : FS) :
    ∀ (n m : Nat) (name : String), n ≤ m →
      (load_theme_fuel e fs n name).fuelOut = false →
      load_theme_fuel e fs m name = load_theme_fuel e fs n name := by
  intro n
  induction n with
  | zero =>
    intro m name _ h
    exact absurd h (by simp [load_theme_fuel])
  | succ k ih =>
    intro m name hle h
    obtain ⟨m', rfl⟩ : ∃ m', m = m' + 1 := ⟨m - 1, by omega⟩
    have hk : k ≤ m' := by omega
    by_cases happ : e.appSet
    · cases hread : read_json_file fs (e.themeFolderStr ++ "/" ++ (basename name ++ ".json")) with
      | ok theme_def =>
        by_cases hmode : alookup theme_def "dark" = none ∧ alookup theme_def "light" = none
        · simp [load_theme_fuel, happ, hread, hmode]
        · simp [load_theme_fuel, happ, hread, hmode]
      | error err =>
        by_cases hne : basename name ≠ e.fallbackName
        · have hfo : (load_theme_fuel e fs k e.fallbackName).fuelOut = false := by
            simpa [load_theme_fuel, happ, hread, hne] using h
          have heq := ih m' e.fallbackName hk hfo
          simp [load_theme_fuel, happ, hread, hne, heq]
        · simp [load_theme_fuel, happ, hread, hne]
    · simp [load_theme_fuel, happ]

/-- With the app set, the first file a `load_theme` call touches is
always `<theme_folder>/<basename(name)>.json`. -/
theorem load_theme_fuel_accesses_head (e : Env) (fs : FS) (k : Nat) (name : String)
    (happ : e.appSet = true) :
    (load_theme_fuel e fs (k + 1) name).accesses.head? = some (theme_file_for e name) := by
  cases hread : read_json_file fs (e.themeFolderStr ++ "/" ++ (basename name ++ ".json")) with
  | ok theme_def =>
    by_cases hmode : alookup theme_def "dark" = none ∧ alookup theme_def "light" = none
    · simp [load_theme_fuel, happ, hread, hmode, theme_file_for]
    · simp [load_theme_fuel, happ, hread, hmode, theme_file_for]
  | error err =>
    by_cases hne : basename name ≠ e.fallbackName
    · simp [load_theme_fuel, happ, hread, hne, theme_file_for]
    · simp [load_theme_fuel, happ, hread, hne, theme_file_for]

/-! ### Claim theorems -/

/-- C9: `load_theme` itself requires the app to be set: with no app it
raises "App is not initialized" immediately — no file access, no
basename stripping, no registration, no log, no fallback attempt — and
the exception propagates to the caller. -/
theorem load_theme_requires_app (e : Env) (fs : FS) (fuel : Nat) (name : String)
    (happ : e.appSet = false) :
    load_theme_fuel e fs (fuel + 1) name =
      { regs := [], logs := [], accesses := [],
        err := some .appNotInitialized, fuelOut := false } := by
  simp [load_theme_fuel, happ]

/-- C9 witness: `load_theme` on an uninitialized manager at a concrete
input. -/
theorem load_theme_requires_app_witness :
    noAppEnv.appSet = false
    ∧ load_theme_fuel noAppEnv sampleFS 1 "par" =
      { regs := [], logs := [], accesses := [],
        err := some .appNotInitialized, fuelOut := false } :=
  ⟨by decide, load_theme_requires_app noAppEnv sampleFS 0 "par" (by decide)⟩

/-- C1 (amended): a definition that parses but has neither `"dark"`
nor `"light"` makes `load_theme` raise `ThemeModeError`, and — contrary
to the claim — the exception escapes `load_theme` to its caller (it is
not caught by the `except (SecureFileOpsError, OSError)` handler), with
no theme registered. -/
theorem load_theme_themeModeError_propagates (e : Env) (fs : FS) (fuel : Nat) (name : String)
    (d : ThemeDef)
    (happ : e.appSet = true)
    (hread : read_json_file fs (theme_file_for e name) = .ok d)
    (hdark : alookup d "dark" = none) (hlight : alookup d "light" = none) :
    (load_theme_fuel e fs (fuel + 1) name).err = some (.themeMode (basename name))
    ∧ (load_theme_fuel e fs (fuel + 1) name).regs = [] := by
  rw [show theme_file_for e name
      = e.themeFolderStr ++ "/" ++ (basename name ++ ".json") from rfl] at hread
  constructor <;> simp [load_theme_fuel, happ, hread, hdark, hlight]

/-- C1 counterexample: on a theme folder whose `empty.json` parses to
`{"other": {}}`, the `ThemeModeError` escapes both `load_theme` and
`load_themes` as an exception to the caller, refuting "this exception
never escapes". -/
theorem themeModeError_escapes_counterexample :
    (load_theme_fuel sampleEnv noModeFS 1 "empty").err = some (.themeMode "empty")
    ∧ (load_themes_fuel sampleEnv noModeFS 1).2.err = some (.themeMode "empty") := by
  constructor <;> decide

/-- C1 witness: the amended claim at the same concrete input. -/
theorem load_theme_themeModeError_propagates_witness :
    (sampleEnv.appSet = true
      ∧ read_json_file noModeFS (theme_file_for sampleEnv "empty") = .ok [("other", [])]
      ∧ alookup [("other", ([] : Attrs))] "dark" = none
      ∧ alookup [("other", ([] : Attrs))] "light" = none)
    ∧ (load_theme_fuel sampleEnv noModeFS 1 "empty").err = some (.themeMode "empty") :=
  ⟨⟨by decide, by rfl, by decide, by decide⟩,
    (load_theme_themeModeError_propagates sampleEnv noModeFS 0 "empty" [("other", [])]
      (by decide) (by rfl) (by decide) (by decide)).1⟩

/-- C2: with at least one mode key present, `load_theme` registers
exactly one runtime theme per present mode, named
`<basename(name)>_<mode>` with that mode's attribute mapping, `"dark"`
before `"light"`, neither skipped because the other is absent, and no
exception escapes. -/
theorem load_theme_registers_present_modes (e : Env) (fs : FS) (fuel : Nat) (name : String)
    (d : ThemeDef)
    (happ : e.appSet = true)
    (hread : read_json_file fs (theme_file_for e name) = .ok d)
    (hmode : ¬(alookup d "dark" = none ∧ alookup d "light" = none)) :
    (load_theme_fuel e fs (fuel + 1) name).regs
      = (match alookup d "dark" with
          | some attrs => [(basename name ++ "_dark", attrs)]
          | none => ([] : List ThemeObj))
        ++ (match alookup d "light" with
          | some attrs => [(basename name ++ "_light", attrs)]
          | none => ([] : List ThemeObj))
    ∧ (load_theme_fuel e fs (fuel + 1) name).err = none := by
  rw [show theme_file_for e name
      = e.themeFolderStr ++ "/" ++ (basename name ++ ".json") from rfl] at hread
  have hu : ("_" : String) ++ "dark" = "_dark" := rfl
  have hl : ("_" : String) ++ "light" = "_light" := rfl
  constructor
  · rw [show (load_theme_fuel e fs (fuel + 1) name).regs = regsFor (basename name) d by
      simp [load_theme_fuel, happ, hread, hmode]]
    cases hd : alookup d "dark" <;> cases hli : alookup d "light" <;>
      simp [regsFor, ThemeModes, hd, hli, String.append_assoc, hu, hl]
  · simp [load_theme_fuel, happ, hread, hmode]

/-- C2 witness: a light-only `custom.json` registers exactly
`custom_light` and a dark-only `par.json` scenario is covered by the
mode match; hypotheses discharged at the light-only input. -/
theorem load_theme_registers_present_modes_witness :
    (sampleEnv.appSet = true
      ∧ read_json_file customFS (theme_file_for sampleEnv "custom")
          = .ok [("light", [("primary", "white")])]
      ∧ ¬(alookup [("light", ([("primary", "white")] : Attrs))] "dark" = none
          ∧ alookup [("light", ([("primary", "white")] : Attrs))] "light" = none))
    ∧ (load_theme_fuel sampleEnv customFS 1 "custom").regs
        = [("custom_light", [("primary", "white")])] := by
  refine ⟨⟨by decide, by rfl, by decide⟩, ?_⟩
  have h := (load_theme_registers_present_modes sampleEnv customFS 0 "custom"
    [("light", [("primary", "white")])] (by decide) (by rfl) (by decide)).1
  simpa using h

/-- C10: inside the fallback branch, every exception of the recursive
`load_theme(fallback)` call — here a `ThemeModeError` raised by a
fallback definition lacking both mode keys — is caught by the
`except Exception` handler and logged, so nothing escapes the fallback
branch. -/
theorem fallback_exceptions_caught (e : Env) (fs : FS) (k : Nat) (name : String)
    (ek : SecureErr) (d : ThemeDef)
    (happ : e.appSet = true)
    (hne : basename name ≠ e.fallbackName)
    (hread : read_json_file fs (theme_file_for e name) = .error ek)
    (hfread : read_json_file fs (theme_file_for e e.fallbackName) = .ok d)
    (hdark : alookup d "dark" = none) (hlight : alookup d "light" = none) :
    (load_theme_fuel e fs (k + 2) name).err = none
    ∧ (load_theme_fuel e fs (k + 2) name).logs
        = [.loadError (basename name) ek, .fallbackFailed e.fallbackName]
    ∧ (load_theme_fuel e fs (k + 2) name).regs = [] := by
  rw [show theme_file_for e name
      = e.themeFolderStr ++ "/" ++ (basename name ++ ".json") from rfl] at hread
  rw [show theme_file_for e e.fallbackName
      = e.themeFolderStr ++ "/" ++ (basename e.fallbackName ++ ".json") from rfl] at hfread
  refine ⟨?_, ?_, ?_⟩ <;>
    simp [load_theme_fuel, happ, hread, hne, hfread, hdark, hlight]

/-- C10 witness: a missing theme with a modeless fallback definition;
the fallback's `ThemeModeError` is absorbed and logged. -/
theorem fallback_exceptions_caught_witness :
    (sampleEnv.appSet = true
      ∧ basename "missing" ≠ sampleEnv.fallbackName
      ∧ read_json_file noModeParFS (theme_file_for sampleEnv "missing") = .error .notFound
      ∧ read_json_file noModeParFS (theme_file_for sampleEnv sampleEnv.fallbackName)
          = .ok [("other", [])]
      ∧ alookup [("other", ([] : Attrs))] "dark" = none
      ∧ alookup [("other", ([] : Attrs))] "light" = none)
    ∧ (load_theme_fuel sampleEnv noModeParFS 2 "missing").err = none
    ∧ (load_theme_fuel sampleEnv noModeParFS 2 "missing").logs
        = [.loadError "missing" .notFound, .fallbackFailed "par"] := by
  have h := fallback_exceptions_caught sampleEnv noModeParFS 0 "missing" .notFound
    [("other", [])] (by decide) (by decide) (by rfl) (by rfl) (by decide) (by decide)
  exact ⟨⟨by decide, by decide, by rfl, by rfl, by decide, by decide⟩, h.1, h.2.1⟩

/-- C3: accessor/storage errors (the `SecureFileOpsError`/`OSError`
family) during `load_theme` are recovered locally: for every completed
run whose primary read fails, no exception reaches the caller, the
failure is logged first, and when the stripped name is not the
configured fallback name the fallback file is indeed accessed. -/
theorem load_theme_accessor_errors_recovered (e : Env) (fs : FS) (fuel : Nat) (name : String)
    (ek : SecureErr)
    (happ : e.appSet = true)
    (hread : read_json_file fs (theme_file_for e name) = .error ek)
    (hfo : (load_theme_fuel e fs fuel name).fuelOut = false) :
    (load_theme_fuel e fs fuel name).err = none
    ∧ (load_theme_fuel e fs fuel name).logs.head? = some (.loadError (basename name) ek)
    ∧ (basename name ≠ e.fallbackName →
        theme_file_for e e.fallbackName ∈ (load_theme_fuel e fs fuel name).accesses) := by
  rw [show theme_file_for e name
      = e.themeFolderStr ++ "/" ++ (basename name ++ ".json") from rfl] at hread
  match fuel with
  | 0 => exact absurd hfo (by simp [load_theme_fuel])
  | k + 1 =>
    by_cases hne : basename name ≠ e.fallbackName
    · have hfo' : (load_theme_fuel e fs k e.fallbackName).fuelOut = false := by
        simpa [load_theme_fuel, happ, hread, hne] using hfo
      obtain ⟨k', rfl⟩ : ∃ k', k = k' + 1 := by
        cases k with
        | zero => exact absurd hfo' (by simp [load_theme_fuel])
        | succ k' => exact ⟨k', rfl⟩
      have hhead := load_theme_fuel_accesses_head e fs k' e.fallbackName happ
      refine ⟨by simp [load_theme_fuel, happ, hread, hne],
        by simp [load_theme_fuel, happ, hread, hne], fun _ => ?_⟩
      have hmem : theme_file_for e e.fallbackName
          ∈ (load_theme_fuel e fs (k' + 1) e.fallbackName).accesses := by
        cases hacc : (load_theme_fuel e fs (k' + 1) e.fallbackName).accesses with
        | nil => rw [hacc] at hhead; simp at hhead
        | cons a t =>
          rw [hacc] at hhead
          simp only [List.head?_cons, Option.some.injEq] at hhead
          exact hhead ▸ List.mem_cons_self a t
      have hstep : (load_theme_fuel e fs (k' + 1 + 1) name).accesses
          = (e.themeFolderStr ++ "/" ++ (basename name ++ ".json"))
            :: (load_theme_fuel e fs (k' + 1) e.fallbackName).accesses := by
        simp [load_theme_fuel, happ, hread, hne]
      rw [hstep]
      exact List.mem_cons_of_mem _ hmem
    · refine ⟨by simp [load_theme_fuel, happ, hread, hne],
        by simp [load_theme_fuel, happ, hread, hne],
        fun hcontra => absurd hcontra hne⟩

/-- C3 witness: a missing theme file under the standard configuration
is recovered via the fallback. -/
theorem load_theme_accessor_errors_recovered_witness :
    (sampleEnv.appSet = true
      ∧ read_json_file sampleFS (theme_file_for sampleEnv "missing") = .error .notFound
      ∧ (load_theme_fuel sampleEnv sampleFS 2 "missing").fuelOut = false)
    ∧ (load_theme_fuel sampleEnv sampleFS 2 "missing").err = none
    ∧ (load_theme_fuel sampleEnv sampleFS 2 "missing").logs.head?
        = some (.loadError "missing" .notFound) := by
  have h := load_theme_accessor_errors_recovered sampleEnv sampleFS 2 "missing" .notFound
    (by decide) (by rfl) (by decide)
  exact ⟨⟨by decide, by rfl, by decide⟩, h.1, h.2.1⟩

/-- When the configured fallback name is its own basename, any
`load_theme` call completes within fuel 2: the name-equality guard
stops the recursion at depth 1, whatever the file system holds. -/
theorem load_theme_fuel2_complete (e : Env) (fs : FS) (name : String)
    (happ : e.appSet = true)
    (hfb : basename e.fallbackName = e.fallbackName) :
    (load_theme_fuel e fs 2 name).fuelOut = false := by
  cases hread : read_json_file fs (e.themeFolderStr ++ "/" ++ (basename name ++ ".json")) with
  | ok d =>
    by_cases hmode : alookup d "dark" = none ∧ alookup d "light" = none <;>
      simp [load_theme_fuel, happ, hread, hmode]
  | error ek =>
    by_cases hne : basename name ≠ e.fallbackName
    · cases hfread : read_json_file fs
          (e.themeFolderStr ++ "/" ++ (basename e.fallbackName ++ ".json")) with
      | ok d' =>
        by_cases hmode' : alookup d' "dark" = none ∧ alookup d' "light" = none <;>
          simp [load_theme_fuel, happ, hread, hne, hfread, hmode']
      | error ek' =>
        rw [hfb] at hfread
        simp [load_theme_fuel, happ, hread, hne, hfread, hfb]
    · simp [load_theme_fuel, happ, hread, hne]

/-- C4 (amended): provided the configured fallback name has no
directory component (its basename is itself), the fallback recursion is
bounded to depth 1: fuel 2 always completes and more fuel changes
nothing; when the stripped name differs from the fallback name and both
files fail to load, the call makes exactly two file accesses, logs both
failures and returns normally; when the stripped name is the fallback
name, there is no recursive attempt (a single access). -/
theorem load_theme_fallback_depth_bounded (e : Env) (fs : FS) (name : String)
    (happ : e.appSet = true)
    (hfb : basename e.fallbackName = e.fallbackName) :
    (load_theme_fuel e fs 2 name).fuelOut = false
    ∧ (∀ m : Nat, 2 ≤ m → load_theme_fuel e fs m name = load_theme_fuel e fs 2 name)
    ∧ (∀ e1 e2 : SecureErr,
        read_json_file fs (theme_file_for e name) = .error e1 →
        read_json_file fs (theme_file_for e e.fallbackName) = .error e2 →
        basename name ≠ e.fallbackName →
        (load_theme_fuel e fs 2 name).accesses
            = [theme_file_for e name, theme_file_for e e.fallbackName]
        ∧ (load_theme_fuel e fs 2 name).logs
            = [.loadError (basename name) e1, .loadError e.fallbackName e2]
        ∧ (load_theme_fuel e fs 2 name).err = none)
    ∧ (basename name = e.fallbackName →
        (load_theme_fuel e fs 2 name).accesses.length ≤ 1) := by
  have hfo : (load_theme_fuel e fs 2 name).fuelOut = false :=
    load_theme_fuel2_complete e fs name happ hfb
  refine ⟨hfo, fun m hm => load_theme_fuel_stable e fs 2 m name hm hfo, ?_, ?_⟩
  · intro e1 e2 hread hfread hne
    rw [show theme_file_for e name
        = e.themeFolderStr ++ "/" ++ (basename name ++ ".json") from rfl] at hread
    rw [show theme_file_for e e.fallbackName
        = e.themeFolderStr ++ "/" ++ (basename e.fallbackName ++ ".json") from rfl] at hfread
    rw [hfb] at hfread
    refine ⟨?_, ?_, ?_⟩ <;>
      simp [load_theme_fuel, happ, hread, hfread, hne, hfb, theme_file_for]
  · intro heq
    cases hread : read_json_file fs (e.themeFolderStr ++ "/" ++ (basename name ++ ".json")) with
    | ok d =>
      by_cases hmode : alookup d "dark" = none ∧ alookup d "light" = none <;>
        simp [load_theme_fuel, happ, hread, hmode]
    | error ek =>
      rw [heq] at hread
      simp [load_theme_fuel, happ, hread, heq]

/-- C4 counterexample: with the configured fallback name `"bad/fb"`
(whose basename `"fb"` never equals it, so the name-equality guard
never fires) and an empty theme folder, loading `"x"` — a name whose
basename differs from the fallback name, with its access failing — has
already made five file accesses at fuel 5 and is still truncated: the
recursion is not bounded to depth 1 and the call does not return after
at most two access attempts. -/
theorem fallback_recursion_unbounded_counterexample :
    basename "x" ≠ slashFallbackEnv.fallbackName
    ∧ read_json_file emptyFS (theme_file_for slashFallbackEnv "x") = .error .notFound
    ∧ (load_theme_fuel slashFallbackEnv emptyFS 5 "x").accesses.length = 5
    ∧ (load_theme_fuel slashFallbackEnv emptyFS 5 "x").fuelOut = true := by
  refine ⟨by decide, by rfl, by decide, by decide⟩

/-- C4 witness: the amended bound at the standard configuration, where
`"missing"` and the fallback file are both absent. -/
theorem load_theme_fallback_depth_bounded_witness :
    (sampleEnv.appSet = true ∧ basename sampleEnv.fallbackName = sampleEnv.fallbackName)
    ∧ (load_theme_fuel sampleEnv emptyFS 2 "missing").fuelOut = false
    ∧ (load_theme_fuel sampleEnv emptyFS 2 "missing").accesses
        = [theme_file_for sampleEnv "missing",
            theme_file_for sampleEnv sampleEnv.fallbackName]
    ∧ (load_theme_fuel sampleEnv emptyFS 2 "missing").err = none := by
  have h := load_theme_fallback_depth_bounded sampleEnv emptyFS "missing"
    (by decide) (by decide)
  have h3 := h.2.2.1 .notFound .notFound (by rfl) (by rfl) (by decide)
  exact ⟨⟨by decide, by decide⟩, h.1, h3.1, h3.2.2⟩

/-- C5: every file `load_theme` ever accesses — at any recursion depth
— lies directly inside the theme storage folder: it is
`<theme_folder>/<c>` for a slash-free component `c` with a `.json`
extension; with the app set, the first access is exactly
`<theme_folder>/<basename(name)>.json`; and directory components are
stripped, e.g. `basename "../../etc/passwd" = "passwd"`. -/
theorem load_theme_path_injection_safe (e : Env) (fs : FS) :
    (∀ (fuel : Nat) (name p : String),
        p ∈ (load_theme_fuel e fs fuel name).accesses →
        ∃ c : String, p = e.themeFolderStr ++ "/" ++ c ∧ noSlash c = true
          ∧ hasJsonExt c = true)
    ∧ (∀ (fuel : Nat) (name : String), e.appSet = true →
        (load_theme_fuel e fs (fuel + 1) name).accesses.head?
          = some (e.themeFolderStr ++ "/" ++ (basename name ++ ".json")))
    ∧ basename "../../etc/passwd" = "passwd" := by
  have hcomp : ∀ n : String, noSlash (basename n ++ ".json") = true
      ∧ hasJsonExt (basename n ++ ".json") = true := by
    intro n
    refine ⟨?_, hasJsonExt_append _⟩
    rw [noSlash_append, basename_noSlash]
    decide
  refine ⟨?_, ?_, by decide⟩
  · intro fuel
    induction fuel with
    | zero => intro name p hp; simp [load_theme_fuel] at hp
    | succ k ih =>
      intro name p hp
      by_cases happ : e.appSet
      · cases hread : read_json_file fs
            (e.themeFolderStr ++ "/" ++ (basename name ++ ".json")) with
        | ok d =>
          have hp' : p = e.themeFolderStr ++ "/" ++ (basename name ++ ".json") := by
            by_cases hmode : alookup d "dark" = none ∧ alookup d "light" = none <;>
              simpa [load_theme_fuel, happ, hread, hmode] using hp
          exact ⟨basename name ++ ".json", hp', (hcomp name).1, (hcomp name).2⟩
        | error ek =>
          by_cases hne : basename name ≠ e.fallbackName
          · have hp' : p = e.themeFolderStr ++ "/" ++ (basename name ++ ".json")
                ∨ p ∈ (load_theme_fuel e fs k e.fallbackName).accesses := by
              simpa [load_theme_fuel, happ, hread, hne] using hp
            cases hp' with
            | inl h => exact ⟨basename name ++ ".json", h, (hcomp name).1, (hcomp name).2⟩
            | inr h => exact ih e.fallbackName p h
          · have hp' : p = e.themeFolderStr ++ "/" ++ (basename name ++ ".json") := by
              simpa [load_theme_fuel, happ, hread, hne] using hp
            exact ⟨basename name ++ ".json", hp', (hcomp name).1, (hcomp name).2⟩
      · simp [load_theme_fuel, happ] at hp
  · intro fuel name happ
    exact load_theme_fuel_accesses_head e fs fuel name happ

/-- C5 witness: loading `"../../etc/passwd"` accesses
`/data/themes/passwd.json` — inside the storage folder — and that is
its first access. -/
theorem load_theme_path_injection_safe_witness :
    ("/data/themes/passwd.json" ∈ (load_theme_fuel sampleEnv sampleFS 2 "../../etc/passwd").accesses
      ∧ sampleEnv.appSet = true)
    ∧ (∃ c : String, "/data/themes/passwd.json" = sampleEnv.themeFolderStr ++ "/" ++ c
        ∧ noSlash c = true ∧ hasJsonExt c = true)
    ∧ (load_theme_fuel sampleEnv sampleFS 2 "../../etc/passwd").accesses.head?
        = some (sampleEnv.themeFolderStr ++ "/" ++ (basename "../../etc/passwd" ++ ".json")) :=
  ⟨⟨by decide, by decide⟩,
    (load_theme_path_injection_safe sampleEnv sampleFS).1 2 "../../etc/passwd"
      "/data/themes/passwd.json" (by decide),
    (load_theme_path_injection_safe sampleEnv sampleFS).2.1 1 "../../etc/passwd" (by decide)⟩

theorem alookup_cons_hit {α : Type} (k : String) (v : α) (rest : List (String × α)) :
    alookup ((k, v) :: rest) k = some v := by
  simp [alookup]

theorem alookup_cons_miss {α : Type} (k key : String) (v : α) (rest : List (String × α))
    (h : ¬k = key) : alookup ((k, v) :: rest) key = alookup rest key := by
  simp [alookup, h]

/-- `ensure_default_theme` is a no-op once the folder and
`<theme_folder>/par.json` both exist. -/
theorem ensure_default_theme_noop (e : Env) (fs : FS)
    (hdir : e.themeFolderStr ∈ fs.dirs)
    (hfile : (alookup fs.files (e.themeFolderStr ++ "/" ++ "par.json")).isSome = true) :
    ensure_default_theme e fs = fs := by
  simp [ensure_default_theme, hdir, hfile]

/-- C6: once the theme storage directory and the default
`<theme_folder>/par.json` exist, `ensure_default_theme` leaves the
file system exactly unchanged — no overwrite of the default file and no
directory change; consequently running it twice from any state equals
running it once. -/
theorem ensure_default_theme_idempotent (e : Env) (fs : FS)
    (hdir : e.themeFolderStr ∈ fs.dirs)
    (hfile : (alookup fs.files (e.themeFolderStr ++ "/" ++ "par.json")).isSome = true) :
    ensure_default_theme e fs = fs
    ∧ ∀ fs1 : FS, ensure_default_theme e (ensure_default_theme e fs1)
        = ensure_default_theme e fs1 := by
  refine ⟨ensure_default_theme_noop e fs hdir hfile, fun fs1 => ?_⟩
  apply ensure_default_theme_noop
  · by_cases h1 : e.themeFolderStr ∈ fs1.dirs <;>
      by_cases h2 : (alookup fs1.files (e.themeFolderStr ++ "/" ++ "par.json")).isSome = true <;>
      simp [ensure_default_theme, h1, h2]
  · by_cases h1 : e.themeFolderStr ∈ fs1.dirs <;>
      by_cases h2 : (alookup fs1.files (e.themeFolderStr ++ "/" ++ "par.json")).isSome = true <;>
      simp [ensure_default_theme, h1, h2, alookup_cons_hit]

/-- C6 witness: a state already holding the directory and the default
file is left unchanged. -/
theorem ensure_default_theme_idempotent_witness :
    (sampleEnv.themeFolderStr ∈ sampleFS.dirs
      ∧ (alookup sampleFS.files (sampleEnv.themeFolderStr ++ "/" ++ "par.json")).isSome = true)
    ∧ ensure_default_theme sampleEnv sampleFS = sampleFS :=
  ⟨⟨by decide, by decide⟩,
    (ensure_default_theme_idempotent sampleEnv sampleFS (by decide) (by decide)).1⟩

/-- C8: every facade operation — `get_theme`, `list_themes`,
`theme_select_options`, `change_theme` — fails with the
app-not-initialized error when no app is set, propagating it to the
caller; and with an app set, `theme_select_options` is exactly one
`(label, value)` pair per key of `list_themes`, label and value both
the theme key. -/
theorem facade_requires_app (name : String) (a : AppState) :
    get_theme (none : Option AppState) name = .error .appNotInitialized
    ∧ list_themes (none : Option AppState) = .error .appNotInitialized
    ∧ theme_select_options (none : Option AppState) = .error .appNotInitialized
    ∧ change_theme (none : Option AppState) name = .error .appNotInitialized
    ∧ theme_select_options (some a)
        = .ok ((a.availableThemes.map Prod.fst).map fun t => (t, t)) := by
  exact ⟨rfl, rfl, rfl, rfl, rfl⟩

/-- C8 witness: the facade at a concrete name and app state. -/
theorem facade_requires_app_witness :
    get_theme (none : Option AppState) "par_dark" = .error .appNotInitialized
    ∧ theme_select_options (some ⟨[("par_dark", ("par_dark", []))], "par_dark"⟩)
        = .ok [("par_dark", "par_dark")] := by
  have h := facade_requires_app "par_dark" ⟨[("par_dark", ("par_dark", []))], "par_dark"⟩
  exact ⟨h.1, h.2.2.2.2⟩

/-- Evaluation of the accessor on a file found in the listing. -/
theorem read_json_file_eval (fs : FS) (p : String) (x : FileData)
    (hext : hasJsonExt p = true) (hfind : alookup fs.files p = some x) :
    read_json_file fs p =
      (match x with
        | .json d => .ok d
        | .invalid => .error .parseError) := by
  unfold read_json_file
  rw [if_pos hext]
  cases x with
  | json d => simp [hfind]
  | invalid => simp [hfind]

/-- Evaluation of one `load_theme` step whose read succeeds with at
least one mode key present. -/
theorem load_theme_fuel_ok_eval (e : Env) (fs : FS) (k : Nat) (name : String) (d : ThemeDef)
    (happ : e.appSet = true)
    (hread : read_json_file fs (theme_file_for e name) = .ok d)
    (hmode : ¬(alookup d "dark" = none ∧ alookup d "light" = none)) :
    load_theme_fuel e fs (k + 1) name =
      ⟨regsFor (basename name) d, [], [theme_file_for e name], none, false⟩ := by
  rw [show theme_file_for e name
      = e.themeFolderStr ++ "/" ++ (basename name ++ ".json") from rfl] at hread
  simp [load_theme_fuel, happ, hread, hmode, theme_file_for]

/-- Evaluation of one `load_theme` step whose read fails on a
non-fallback name, in terms of the recursive fallback call's result. -/
theorem load_theme_fuel_err_eval (e : Env) (fs : FS) (k : Nat) (name : String) (ek : SecureErr)
    (r : LoadResult)
    (happ : e.appSet = true)
    (hread : read_json_file fs (theme_file_for e name) = .error ek)
    (hne : basename name ≠ e.fallbackName)
    (hr : load_theme_fuel e fs k e.fallbackName = r) :
    load_theme_fuel e fs (k + 1) name =
      ⟨r.regs,
        .loadError (basename name) ek
          :: (r.logs ++ if r.err.isSome then [.fallbackFailed e.fallbackName] else []),
        theme_file_for e name :: r.accesses, none, r.fuelOut⟩ := by
  rw [show theme_file_for e name
      = e.themeFolderStr ++ "/" ++ (basename name ++ ".json") from rfl] at hread
  simp [load_theme_fuel, happ, hread, hne, hr, theme_file_for]

theorem listEntry_append (dir c : String) (hc : c.data ≠ [])
    (hc' : c.data.all (fun ch => ch ≠ '/') = true) :
    listEntry dir (dir ++ "/" ++ c) = some c := by
  unfold listEntry
  rw [show (dir ++ "/" ++ c).data = (dir ++ "/").data ++ c.data from String.data_append _ _,
    dropPre_append]
  have hm : '/' ∉ c.data := by
    intro hmem
    have hdec := List.all_eq_true.mp hc' '/' hmem
    simp at hdec
  simp [hc, hm]

theorem listdir_cons (dir c : String) (x : FileData) (rest : List (String × FileData))
    (hc : c.data ≠ []) (hc' : c.data.all (fun ch => ch ≠ '/') = true) :
    listdir ((dir ++ "/" ++ c, x) :: rest) dir = c :: listdir rest dir := by
  unfold listdir
  simp only [List.filterMap_cons, listEntry_append dir c hc hc']

/-- A successful accessor read means the file is listed with parseable
content. -/
theorem read_json_file_ok_inv (fs : FS) (p : String) (d : ThemeDef)
    (h : read_json_file fs p = .ok d) : alookup fs.files p = some (.json d) := by
  unfold read_json_file at h
  by_cases hext : hasJsonExt p = true
  · rw [if_pos hext] at h
    cases hl : alookup fs.files p with
    | none => rw [hl] at h; simp at h
    | some x =>
      cases x with
      | json d' =>
        rw [hl] at h
        simp only [Except.ok.injEq] at h
        rw [h]
      | invalid => rw [hl] at h; simp at h
  · rw [if_neg hext] at h; simp at h

/-- `load_theme` lets no exception escape unless the primary read
parses to a definition with neither mode key: accessor errors are
recovered (with or without fallback) and every exception of the
recursive fallback call is absorbed. -/
theorem load_theme_fuel_err_none (e : Env) (fs : FS) (fuel : Nat) (name : String)
    (happ : e.appSet = true)
    (hok : ∀ d, read_json_file fs (theme_file_for e name) = .ok d →
        ¬(alookup d "dark" = none ∧ alookup d "light" = none)) :
    (load_theme_fuel e fs (fuel + 1) name).err = none := by
  cases hread : read_json_file fs (e.themeFolderStr ++ "/" ++ (basename name ++ ".json")) with
  | ok d =>
    have hmode := hok d (by
      rw [show theme_file_for e name
          = e.themeFolderStr ++ "/" ++ (basename name ++ ".json") from rfl]
      exact hread)
    simp [load_theme_fuel, happ, hread, hmode]
  | error ek =>
    by_cases hne : basename name ≠ e.fallbackName <;>
      simp [load_theme_fuel, happ, hread, hne]

/-- With the app set, a failing primary read is logged first. -/
theorem load_theme_fuel_logs_head (e : Env) (fs : FS) (k : Nat) (name : String) (ek : SecureErr)
    (happ : e.appSet = true)
    (hread : read_json_file fs (theme_file_for e name) = .error ek) :
    (load_theme_fuel e fs (k + 1) name).logs.head? = some (.loadError (basename name) ek) := by
  rw [show theme_file_for e name
      = e.themeFolderStr ++ "/" ++ (basename name ++ ".json") from rfl] at hread
  by_cases hne : basename name ≠ e.fallbackName <;>
    simp [load_theme_fuel, happ, hread, hne]

/-- A file directly inside the directory shows up in its listing. -/
theorem listdir_mem (files : List (String × FileData)) (dir c : String) (x : FileData)
    (hmem : (dir ++ "/" ++ c, x) ∈ files) (hc : c.data ≠ [])
    (hc' : c.data.all (fun ch => ch ≠ '/') = true) :
    c ∈ listdir files dir := by
  unfold listdir
  exact List.mem_filterMap.mpr ⟨(dir ++ "/" ++ c, x), hmem, listEntry_append dir c hc hc'⟩

/-- When every `.json` entry's load completes without an escaping
exception, the batch completes, aborts nothing, and keeps every
registration, access and log event of every entry. -/
theorem run_batch_all_ok (e : Env) (fs : FS) (fuel : Nat) :
    ∀ entries : List String,
      (∀ f ∈ entries, jsonExtCI f = true →
        (load_theme_fuel e fs fuel (e.themeFolderStr ++ "/" ++ splitextRoot f)).err = none
        ∧ (load_theme_fuel e fs fuel (e.themeFolderStr ++ "/" ++ splitextRoot f)).fuelOut
            = false) →
      (run_batch e fs fuel entries).err = none
      ∧ (run_batch e fs fuel entries).fuelOut = false
      ∧ (∀ f ∈ entries, jsonExtCI f = true →
          (∀ t ∈ (load_theme_fuel e fs fuel (e.themeFolderStr ++ "/" ++ splitextRoot f)).regs,
            t ∈ (run_batch e fs fuel entries).regs)
          ∧ (∀ p ∈ (load_theme_fuel e fs fuel
                (e.themeFolderStr ++ "/" ++ splitextRoot f)).accesses,
            p ∈ (run_batch e fs fuel entries).accesses)
          ∧ (∀ lg ∈ (load_theme_fuel e fs fuel
                (e.themeFolderStr ++ "/" ++ splitextRoot f)).logs,
            lg ∈ (run_batch e fs fuel entries).logs)) := by
  intro entries
  induction entries with
  | nil =>
    intro _
    refine ⟨rfl, rfl, ?_⟩
    intro f hf
    cases hf
  | cons g rest ih =>
    intro h
    have hrest := ih fun f hf hj => h f (List.mem_cons_of_mem _ hf) hj
    by_cases hj : jsonExtCI g = true
    · have hg := h g (List.mem_cons_self _ _) hj
      have hstep : run_batch e fs fuel (g :: rest)
          = ⟨(load_theme_fuel e fs fuel (e.themeFolderStr ++ "/" ++ splitextRoot g)).regs
              ++ (run_batch e fs fuel rest).regs,
            (load_theme_fuel e fs fuel (e.themeFolderStr ++ "/" ++ splitextRoot g)).logs
              ++ (run_batch e fs fuel rest).logs,
            (load_theme_fuel e fs fuel (e.themeFolderStr ++ "/" ++ splitextRoot g)).accesses
              ++ (run_batch e fs fuel rest).accesses,
            (run_batch e fs fuel rest).err, (run_batch e fs fuel rest).fuelOut⟩ := by
        simp [run_batch, hj, hg.1, hg.2]
      refine ⟨by rw [hstep]; exact hrest.1, by rw [hstep]; exact hrest.2.1, ?_⟩
      intro f hf hjf
      cases List.mem_cons.mp hf with
      | inl he =>
        subst he
        exact ⟨fun t ht => by rw [hstep]; exact List.mem_append_left _ ht,
          fun p hp => by rw [hstep]; exact List.mem_append_left _ hp,
          fun lg hlg => by rw [hstep]; exact List.mem_append_left _ hlg⟩
      | inr hm =>
        have hr := hrest.2.2 f hm hjf
        exact ⟨fun t ht => by rw [hstep]; exact List.mem_append_right _ (hr.1 t ht),
          fun p hp => by rw [hstep]; exact List.mem_append_right _ (hr.2.1 p hp),
          fun lg hlg => by rw [hstep]; exact List.mem_append_right _ (hr.2.2 lg hlg)⟩
    · have hstep : run_batch e fs fuel (g :: rest) = run_batch e fs fuel rest := by
        simp [run_batch, hj]
      refine ⟨by rw [hstep]; exact hrest.1, by rw [hstep]; exact hrest.2.1, ?_⟩
      intro f hf hjf
      cases List.mem_cons.mp hf with
      | inl he => rw [he] at hjf; exact absurd hjf hj
      | inr hm =>
        have hr := hrest.2.2 f hm hjf
        rw [hstep]
        exact hr

/-- C7: for every storage directory holding one valid theme file
(`<v>.json`, parsing with at least one mode key) and one unparsable
`.json` file (`<w>.json`), in either listing order, `load_themes`
registers every theme of the valid file, still processes the invalid
file (accessing it and logging its parse failure), and finishes with
no escaping exception and no truncation — one bad theme file never
aborts the batch.  Quantification covers any folder path, any file
names (slash-free with a non-dot character, so `<v>.json` round-trips
through `splitext`), any configured fallback whose name is its own
basename (the proviso C4 forces), a fallback file that may be absent,
unparsable or arbitrary, and any bundled default asset that is not a
modeless definition (the spec guarantees the asset is a valid theme
definition). -/
theorem load_themes_bad_file_no_abort (e : Env) (fs : FS) (v w : String) (d : ThemeDef)
    (happ : e.appSet = true)
    (hfb : basename e.fallbackName = e.fallbackName)
    (hasset : ∀ da, e.defaultAsset = FileData.json da →
        ¬(alookup da "dark" = none ∧ alookup da "light" = none))
    (hdir : e.themeFolderStr ∈ fs.dirs)
    (hv : noSlash v = true) (hw : noSlash w = true)
    (hvdot : ∃ c ∈ v.data, c ≠ '.') (hwdot : ∃ c ∈ w.data, c ≠ '.')
    (hvw : v ≠ w)
    (hfiles : fs.files = [(e.themeFolderStr ++ "/" ++ (v ++ ".json"), .json d),
        (e.themeFolderStr ++ "/" ++ (w ++ ".json"), .invalid)]
      ∨ fs.files = [(e.themeFolderStr ++ "/" ++ (w ++ ".json"), .invalid),
        (e.themeFolderStr ++ "/" ++ (v ++ ".json"), .json d)])
    (hmode : ¬(alookup d "dark" = none ∧ alookup d "light" = none)) :
    (load_themes_fuel e fs 2).2.err = none
    ∧ (load_themes_fuel e fs 2).2.fuelOut = false
    ∧ (∀ t ∈ regsFor v d, t ∈ (load_themes_fuel e fs 2).2.regs)
    ∧ (e.themeFolderStr ++ "/" ++ (w ++ ".json")) ∈ (load_themes_fuel e fs 2).2.accesses
    ∧ LogEvent.loadError w SecureErr.parseError ∈ (load_themes_fuel e fs 2).2.logs := by
  have hwv_ne : ¬(e.themeFolderStr ++ "/" ++ (w ++ ".json"))
      = e.themeFolderStr ++ "/" ++ (v ++ ".json") :=
    append_right_ne _ _ _ (append_json_ne w v (Ne.symm hvw))
  have hvw_ne : ¬(e.themeFolderStr ++ "/" ++ (v ++ ".json"))
      = e.themeFolderStr ++ "/" ++ (w ++ ".json") :=
    append_right_ne _ _ _ (append_json_ne v w hvw)
  have hvlook : alookup fs.files (e.themeFolderStr ++ "/" ++ (v ++ ".json"))
      = some (.json d) := by
    cases hfiles with
    | inl h => rw [h, alookup_cons_hit]
    | inr h => rw [h, alookup_cons_miss _ _ _ _ hwv_ne, alookup_cons_hit]
  have hwlook : alookup fs.files (e.themeFolderStr ++ "/" ++ (w ++ ".json"))
      = some .invalid := by
    cases hfiles with
    | inl h => rw [h, alookup_cons_miss _ _ _ _ hvw_ne, alookup_cons_hit]
    | inr h => rw [h, alookup_cons_hit]
  have hvmem0 : (e.themeFolderStr ++ "/" ++ (v ++ ".json"), FileData.json d) ∈ fs.files := by
    cases hfiles with
    | inl h => rw [h]; exact List.mem_cons_self _ _
    | inr h => rw [h]; exact List.mem_cons_of_mem _ (List.mem_cons_self _ _)
  have hwmem0 : (e.themeFolderStr ++ "/" ++ (w ++ ".json"), FileData.invalid) ∈ fs.files := by
    cases hfiles with
    | inl h => rw [h]; exact List.mem_cons_of_mem _ (List.mem_cons_self _ _)
    | inr h => rw [h]; exact List.mem_cons_self _ _
  have hjson_fs : ∀ p d', alookup fs.files p = some (.json d') →
      ¬(alookup d' "dark" = none ∧ alookup d' "light" = none) := by
    intro p d' hp
    by_cases h1 : (e.themeFolderStr ++ "/" ++ (v ++ ".json")) = p
    · rw [← h1, hvlook] at hp
      simp only [Option.some.injEq, FileData.json.injEq] at hp
      rw [← hp]
      exact hmode
    · by_cases h2 : (e.themeFolderStr ++ "/" ++ (w ++ ".json")) = p
      · rw [← h2, hwlook] at hp
        simp at hp
      · cases hfiles with
        | inl h =>
          rw [h, alookup_cons_miss _ _ _ _ h1, alookup_cons_miss _ _ _ _ h2] at hp
          simp [alookup] at hp
        | inr h =>
          rw [h, alookup_cons_miss _ _ _ _ h2, alookup_cons_miss _ _ _ _ h1] at hp
          simp [alookup] at hp
  obtain ⟨F, hF, hvF, hwF, hvmem, hwmem, hjsonF⟩ :
      ∃ F : List (String × FileData),
        (ensure_default_theme e fs).files = F
        ∧ alookup F (e.themeFolderStr ++ "/" ++ (v ++ ".json")) = some (.json d)
        ∧ alookup F (e.themeFolderStr ++ "/" ++ (w ++ ".json")) = some .invalid
        ∧ (e.themeFolderStr ++ "/" ++ (v ++ ".json"), FileData.json d) ∈ F
        ∧ (e.themeFolderStr ++ "/" ++ (w ++ ".json"), FileData.invalid) ∈ F
        ∧ ∀ p d', alookup F p = some (.json d') →
            ¬(alookup d' "dark" = none ∧ alookup d' "light" = none) := by
    by_cases hpar : (alookup fs.files (e.themeFolderStr ++ "/" ++ "par.json")).isSome = true
    · exact ⟨fs.files, by rw [ensure_default_theme_noop e fs hdir hpar],
        hvlook, hwlook, hvmem0, hwmem0, hjson_fs⟩
    · have hens : ensure_default_theme e fs
          = { fs with files :=
              (e.themeFolderStr ++ "/" ++ "par.json", e.defaultAsset) :: fs.files } := by
        simp [ensure_default_theme, hdir, hpar]
      have hpv : ¬(e.themeFolderStr ++ "/" ++ "par.json")
          = e.themeFolderStr ++ "/" ++ (v ++ ".json") := by
        intro hh
        exact hpar (by rw [hh, hvlook]; rfl)
      have hpw : ¬(e.themeFolderStr ++ "/" ++ "par.json")
          = e.themeFolderStr ++ "/" ++ (w ++ ".json") := by
        intro hh
        exact hpar (by rw [hh, hwlook]; rfl)
      refine ⟨(e.themeFolderStr ++ "/" ++ "par.json", e.defaultAsset) :: fs.files,
        by rw [hens], ?_, ?_, List.mem_cons_of_mem _ hvmem0, List.mem_cons_of_mem _ hwmem0, ?_⟩
      · rw [alookup_cons_miss _ _ _ _ hpv]
        exact hvlook
      · rw [alookup_cons_miss _ _ _ _ hpw]
        exact hwlook
      · intro p d' hp
        by_cases hpp : (e.themeFolderStr ++ "/" ++ "par.json") = p
        · rw [← hpp, alookup_cons_hit] at hp
          simp only [Option.some.injEq] at hp
          exact hasset d' hp
        · rw [alookup_cons_miss _ _ _ _ hpp] at hp
          exact hjson_fs p d' hp
  have hventry : (v ++ ".json") ∈ listdir F e.themeFolderStr :=
    listdir_mem F _ _ _ hvmem (append_json_data_ne_nil v)
      (show noSlash (v ++ ".json") = true by rw [noSlash_append, hv]; decide)
  have hwentry : (w ++ ".json") ∈ listdir F e.themeFolderStr :=
    listdir_mem F _ _ _ hwmem (append_json_data_ne_nil w)
      (show noSlash (w ++ ".json") = true by rw [noSlash_append, hw]; decide)
  have hsv : splitextRoot (v ++ ".json") = v := splitextRoot_json v hv hvdot
  have hsw : splitextRoot (w ++ ".json") = w := splitextRoot_json w hw hwdot
  have hbv : basename (e.themeFolderStr ++ "/" ++ v) = v := basename_append _ _ hv
  have hbw : basename (e.themeFolderStr ++ "/" ++ w) = w := basename_append _ _ hw
  have htfv : theme_file_for e (e.themeFolderStr ++ "/" ++ v)
      = e.themeFolderStr ++ "/" ++ (v ++ ".json") := by
    unfold theme_file_for
    rw [hbv]
  have htfw : theme_file_for e (e.themeFolderStr ++ "/" ++ w)
      = e.themeFolderStr ++ "/" ++ (w ++ ".json") := by
    unfold theme_file_for
    rw [hbw]
  have hreadv : read_json_file (ensure_default_theme e fs)
      (theme_file_for e (e.themeFolderStr ++ "/" ++ v)) = .ok d :=
    read_json_file_eval _ _ (.json d) (theme_file_for_ext e _)
      (by rw [htfv, hF]; exact hvF)
  have hreadw : read_json_file (ensure_default_theme e fs)
      (theme_file_for e (e.themeFolderStr ++ "/" ++ w)) = .error .parseError :=
    read_json_file_eval _ _ .invalid (theme_file_for_ext e _)
      (by rw [htfw, hF]; exact hwF)
  have hrv := load_theme_fuel_ok_eval e (ensure_default_theme e fs) 1
    (e.themeFolderStr ++ "/" ++ v) d happ hreadv hmode
  rw [hbv] at hrv
  have hwlog := load_theme_fuel_logs_head e (ensure_default_theme e fs) 1
    (e.themeFolderStr ++ "/" ++ w) .parseError happ hreadw
  rw [hbw] at hwlog
  have hwacc := load_theme_fuel_accesses_head e (ensure_default_theme e fs) 1
    (e.themeFolderStr ++ "/" ++ w) happ
  rw [htfw] at hwacc
  have hobl : ∀ f ∈ listdir F e.themeFolderStr, jsonExtCI f = true →
      (load_theme_fuel e (ensure_default_theme e fs) 2
        (e.themeFolderStr ++ "/" ++ splitextRoot f)).err = none
      ∧ (load_theme_fuel e (ensure_default_theme e fs) 2
        (e.themeFolderStr ++ "/" ++ splitextRoot f)).fuelOut = false := by
    intro f _ _
    refine ⟨?_, load_theme_fuel2_complete e _ _ happ hfb⟩
    apply load_theme_fuel_err_none e _ 1 _ happ
    intro d' hread'
    have hl := read_json_file_ok_inv _ _ _ hread'
    rw [hF] at hl
    exact hjsonF _ d' hl
  have hbatch := run_batch_all_ok e (ensure_default_theme e fs) 2
    (listdir F e.themeFolderStr) hobl
  have hgoal : (load_themes_fuel e fs 2).2
      = run_batch e (ensure_default_theme e fs) 2 (listdir F e.themeFolderStr) := by
    simp only [load_themes_fuel]
    rw [hF]
  refine ⟨by rw [hgoal]; exact hbatch.1, by rw [hgoal]; exact hbatch.2.1, ?_, ?_, ?_⟩
  · have hp := (hbatch.2.2 (v ++ ".json") hventry (jsonExtCI_append v)).1
    rw [hsv, hrv] at hp
    intro t ht
    rw [hgoal]
    exact hp t ht
  · have hp := (hbatch.2.2 (w ++ ".json") hwentry (jsonExtCI_append w)).2.1
    rw [hsw] at hp
    rw [hgoal]
    exact hp _ (List.mem_of_mem_head? (Option.mem_def.mpr hwacc))
  · have hp := (hbatch.2.2 (w ++ ".json") hwentry (jsonExtCI_append w)).2.2
    rw [hsw] at hp
    rw [hgoal]
    exact hp _ (List.mem_of_mem_head? (Option.mem_def.mpr hwlog))

/-- C7 witness: an unparsable `bad.json` listed before a light-only
`custom.json`, with a fallback (`other`) whose file is absent, so the
invalid file rides the double-failure path while `custom_light` is
still registered. -/
theorem load_themes_bad_file_no_abort_witness :
    (otherFbEnv.appSet = true
      ∧ basename otherFbEnv.fallbackName = otherFbEnv.fallbackName
      ∧ (∀ da, otherFbEnv.defaultAsset = FileData.json da →
          ¬(alookup da "dark" = none ∧ alookup da "light" = none))
      ∧ otherFbEnv.themeFolderStr ∈ invalidFirstFS.dirs
      ∧ noSlash "custom" = true ∧ noSlash "bad" = true
      ∧ (∃ c ∈ ("custom" : String).data, c ≠ '.')
      ∧ ("custom" : String) ≠ "bad"
      ∧ invalidFirstFS.files
          = [(otherFbEnv.themeFolderStr ++ "/" ++ ("bad" ++ ".json"), .invalid),
              (otherFbEnv.themeFolderStr ++ "/" ++ ("custom" ++ ".json"),
                .json [("light", [("primary", "white")])])])
    ∧ (load_themes_fuel otherFbEnv invalidFirstFS 2).2.err = none
    ∧ ("custom_light", [("primary", "white")])
        ∈ (load_themes_fuel otherFbEnv invalidFirstFS 2).2.regs
    ∧ (otherFbEnv.themeFolderStr ++ "/" ++ ("bad" ++ ".json"))
        ∈ (load_themes_fuel otherFbEnv invalidFirstFS 2).2.accesses
    ∧ LogEvent.loadError "bad" SecureErr.parseError
        ∈ (load_themes_fuel otherFbEnv invalidFirstFS 2).2.logs := by
  have h := load_themes_bad_file_no_abort otherFbEnv invalidFirstFS "custom" "bad"
    [("light", [("primary", "white")])]
    (by decide) (by decide)
    (fun da hda => by
      injection hda with hda'
      rw [← hda']
      decide)
    (by decide) (by decide) (by decide) (by decide) (by decide) (by decide)
    (Or.inr (by decide)) (by decide)
  exact ⟨⟨by decide, by decide,
      fun da hda => by
        injection hda with hda'
        rw [← hda']
        decide,
      by decide, by decide, by decide, by decide, by decide, by decide⟩,
    h.1, h.2.2.1 _ (by decide), h.2.2.2.1, h.2.2.2.2⟩

end ThemeManager
